import Mathlib

/-!
Shallow embedding of the rotation-shift calendar core in `src/viewer.py`.

Modelling conventions:
* Calendar dates are day numbers (`Int`); `(target_date - ref_date).days`
  becomes plain integer subtraction.
* Python `%` and `//` are `Int.fmod` and `Int.fdiv` (both round toward
  negative infinity, exactly Python's semantics for every sign combination).
* The pandas dataframe produced by `load_and_prepare_data` is a list of rows,
  each a `(week number, duty-code cells in group-column order)` pair; the
  label lookup `shift_df.loc[week, group]` is a fallible `Option` lookup.
* A Python expression that can raise (`.loc`, `list.index`, list subscripts)
  is modelled with `Option`; `none` is the raised exception.
-/

/-- The fixed canonical group labels, `group_list` in `viewer.py`. -/
def group_list : List String := ["イ", "ロ", "ハ", "ニ", "ホ", "ヘ", "ト"]

/-- One row of the prepared dataframe: the week-number index value and the
duty-code cells in the fixed group-column order. -/
abbrev ShiftRow := Int × List String

/-- The prepared dataframe of `load_and_prepare_data`: rows keyed by week. -/
abbrev ShiftDF := List ShiftRow

/-- Every row has exactly one cell per group column, the shape
`load_and_prepare_data` guarantees by assigning the eight column labels. -/
def WellFormedDF (df : ShiftDF) : Prop :=
  ∀ r ∈ df, r.snd.length = group_list.length

/-- Python `sorted(shift_df.index)`: the week numbers in ascending order. -/
def sorted_index (df : ShiftDF) : List Int :=
  (df.map Prod.fst).insertionSort (· ≤ ·)

/-- Pandas `shift_df.loc[week_num, group]`: find the row labelled `week_num`,
then take its cell in the column labelled `group`; `none` is a KeyError. -/
def df_loc (df : ShiftDF) (week_num : Int) (group : String) : Option String :=
  match df.find? (fun r => r.fst == week_num) with
  | some r =>
    match group_list.indexOf? group with
    | some j => r.snd.get? j
    | none => none
  | none => none

/-- Collapse the cell lookups of the flattening loop: all succeed, or the
first failure propagates (the loop raises and no list is produced). -/
def collect_cells : List (Option String) → Option (List String)
  | [] => some []
  | none :: _ => none
  | some a :: rest => (collect_cells rest).map (fun l => a :: l)

/-- `flatten_shift_data` in `viewer.py`: `[]` for a missing dataframe,
otherwise every `df.loc[week, group]` cell, weeks in ascending order, groups
in the fixed order within each week. -/
def flatten_shift_data (shift_df : Option ShiftDF) : Option (List String) :=
  match shift_df with
  | none => some []
  | some df =>
      collect_cells
        ((sorted_index df).flatMap (fun w => group_list.map (fun g => df_loc df w g)))

/-- The dynamically-typed triple `get_daily_kinmu` returns: duty code, week
number (an `Int` normally, the string `"-"` in the no-data case), group. -/
abbrev KinmuResult := String × (String ⊕ Int) × String

/-- `get_daily_kinmu` in `viewer.py`.  Both subscripts are modelled with
`List.get?` at `Int.toNat` of the computed index; the indices are provably
non-negative (`Int.fmod` by a positive length), so `toNat` loses nothing. -/
def get_daily_kinmu (target_date ref_date : Int) (ref_shift_index : Int)
    (flat_shift_list : List String) : Option KinmuResult :=
  if flat_shift_list = [] then
    some ("データなし", Sum.inl "-", "-")
  else
    let day_difference : Int := target_date - ref_date
    let total_shifts : Int := flat_shift_list.length
    let target_index : Int := Int.fmod (ref_shift_index + day_difference) total_shifts
    let shift_table_week : Int := Int.fdiv target_index (group_list.length : Int) + 1
    let current_group_index : Int := Int.fmod target_index (group_list.length : Int)
    match group_list.get? current_group_index.toNat,
          flat_shift_list.get? target_index.toNat with
    | some current_group, some kinmu =>
        some (kinmu, Sum.inr shift_table_week, current_group)
    | _, _ => none

/-- The duty-code colour chain of `create_calendar_html` (lines 105-112):
red for an exact day-off code, else blue when the code contains `泊`, else
green when it contains `明`, else the default black. -/
def kinmu_color (kinmu : String) : String :=
  if kinmu = "公" || kinmu = "休" then "red"
  else if kinmu.data.contains '泊' then "blue"
  else if kinmu.data.contains '明' then "green"
  else "black"

/-- Anchor-index construction, `viewer.py` lines 284-291:
`week_row_index = sorted(shift_df.index).index(ref_week_input)` (a ValueError
is caught and stops the script), `group_col_index = group_list.index(...)`
(a ValueError aborts via the outer handler), then
`ref_shift_index = week_row_index * len(group_list) + group_col_index`. -/
def ref_shift_index (shift_df : ShiftDF) (ref_week_input : Int)
    (ref_group_input : String) : Option Nat :=
  match (sorted_index shift_df).indexOf? ref_week_input with
  | none => none
  | some week_row_index =>
    match group_list.indexOf? ref_group_input with
    | none => none
    | some group_col_index =>
        some (week_row_index * group_list.length + group_col_index)

/-- The target-index formula as the spec writes it:
`((referenceIndex + dayOffset) mod N + N) mod N` (spec §4.3 step 2), with
`mod` read as Lean's `Int.emod`. -/
def spec_target_index (referenceIndex dayOffset n : Int) : Int :=
  ((referenceIndex + dayOffset) % n + n) % n

/-- A concrete three-week sample table (weeks listed out of order to exercise
the sort), used by witnesses. -/
def sample_df : ShiftDF :=
  [(2, ["b1", "b2", "泊", "明", "b5", "公", "b7"]),
   (1, ["a1", "a2", "a3", "a4", "a5", "a6", "a7"]),
   (3, ["c1", "c2", "c3", "c4", "c5", "休", "c7"])]

/-- The flat schedule of `sample_df`: weeks 1, 2, 3 in ascending order. -/
def sample_flat : List String :=
  ["a1", "a2", "a3", "a4", "a5", "a6", "a7",
   "b1", "b2", "泊", "明", "b5", "公", "b7",
   "c1", "c2", "c3", "c4", "c5", "休", "c7"]

/-! ## Helper lemmas -/

theorem collect_cells_eq_some_iff {opts : List (Option String)} {l : List String} :
    collect_cells opts = some l ↔ opts = l.map some := by
  induction opts generalizing l with
  | nil => cases l <;> simp [collect_cells]
  | cons o rest ih =>
    cases o with
    | none => cases l <;> simp [collect_cells]
    | some a =>
      cases l with
      | nil =>
        simp only [collect_cells, List.map_nil]
        constructor
        · rintro h
          rcases Option.map_eq_some'.mp h with ⟨l', -, h2⟩
          exact absurd h2 (by simp)
        · intro h; exact absurd h (by simp)
      | cons b bs =>
        simp only [collect_cells, List.map_cons, Option.map_eq_some', List.cons.injEq,
          Option.some.injEq]
        constructor
        · rintro ⟨l', hl', rfl, rfl⟩
          exact ⟨rfl, ih.mp hl'⟩
        · rintro ⟨rfl, h⟩
          exact ⟨bs, ih.mpr h, rfl, rfl⟩

theorem collect_cells_total {opts : List (Option String)}
    (h : ∀ o ∈ opts, o.isSome) : ∃ l, collect_cells opts = some l := by
  induction opts with
  | nil => exact ⟨[], rfl⟩
  | cons o rest ih =>
    obtain ⟨l, hl⟩ := ih (fun o ho => h o (List.mem_cons_of_mem _ ho))
    have ho : o.isSome := h o (List.mem_cons_self _ _)
    obtain ⟨a, rfl⟩ := Option.isSome_iff_exists.mp ho
    exact ⟨a :: l, by simp [collect_cells, hl]⟩

theorem get?_eq_some_getD {α : Type} (l : List α) (n : Nat) (d : α)
    (h : n < l.length) : l.get? n = some (l.getD n d) := by
  rw [List.getD_eq_get?, List.get?_eq_get h]
  rfl

theorem get?_flatMap_const {α β : Type} (f : α → List β) (K : Nat) (hK0 : 0 < K)
    (hK : ∀ w, (f w).length = K) (ws : List α) (i : Nat) :
    (ws.flatMap f).get? i = (ws.get? (i / K)).bind (fun w => (f w).get? (i % K)) := by
  induction ws generalizing i with
  | nil => simp
  | cons w rest ih =>
    rcases Nat.lt_or_ge i K with hiK | hiK
    · rw [List.flatMap_cons, List.get?_append (by rw [hK]; exact hiK),
        Nat.div_eq_of_lt hiK, Nat.mod_eq_of_lt hiK]
      rfl
    · obtain ⟨j, rfl⟩ : ∃ j, i = j + K := ⟨i - K, by omega⟩
      rw [List.flatMap_cons, List.get?_append_right (by rw [hK]; omega), hK,
        Nat.add_sub_cancel, ih, Nat.add_div_right _ hK0, Nat.add_mod_right]
      rfl

theorem length_flatMap_const {α β : Type} (f : α → List β) (K : Nat)
    (hK : ∀ w, (f w).length = K) (ws : List α) :
    (ws.flatMap f).length = ws.length * K := by
  induction ws with
  | nil => simp
  | cons w rest ih =>
    rw [List.flatMap_cons, List.length_append, ih, hK, List.length_cons]
    ring

theorem length_map_df_loc (df : ShiftDF) (w : Int) :
    (group_list.map (fun g => df_loc df w g)).length = group_list.length :=
  List.length_map _ _

theorem flatten_eq_some {df : ShiftDF} {flat : List String}
    (h : flatten_shift_data (some df) = some flat) :
    flat.length = df.length * group_list.length ∧
    ∀ i, i < flat.length →
      df_loc df ((sorted_index df).getD (i / group_list.length) 0)
        (group_list.getD (i % group_list.length) "") = some (flat.getD i "") := by
  have hG : 0 < group_list.length := by decide
  simp only [flatten_shift_data] at h
  have hopts := collect_cells_eq_some_iff.mp h
  have hlenopts :
      ((sorted_index df).flatMap (fun w => group_list.map (fun g => df_loc df w g))).length
        = (sorted_index df).length * group_list.length :=
    length_flatMap_const _ _ (length_map_df_loc df) _
  have hsortlen : (sorted_index df).length = df.length := by
    rw [sorted_index, List.length_insertionSort, List.length_map]
  have hflatlen : flat.length = df.length * group_list.length := by
    rw [← hsortlen, ← hlenopts, hopts, List.length_map]
  refine ⟨hflatlen, fun i hi => ?_⟩
  have hidiv : i / group_list.length < (sorted_index df).length := by
    rw [hsortlen]
    exact Nat.div_lt_of_lt_mul (by rw [Nat.mul_comm]; omega)
  have h1 :
      ((sorted_index df).flatMap (fun w => group_list.map (fun g => df_loc df w g))).get? i
        = some (some (flat.getD i "")) := by
    rw [hopts, List.get?_map, get?_eq_some_getD flat i "" hi]
    rfl
  rw [get?_flatMap_const _ group_list.length hG (length_map_df_loc df) _ i,
    get?_eq_some_getD (sorted_index df) _ 0 hidiv] at h1
  rw [Option.some_bind] at h1
  rw [List.get?_map,
    get?_eq_some_getD group_list _ "" (Nat.mod_lt _ hG)] at h1
  simpa using h1

theorem flatten_total {df : ShiftDF} (hwf : WellFormedDF df) :
    ∃ flat, flatten_shift_data (some df) = some flat := by
  simp only [flatten_shift_data]
  apply collect_cells_total
  intro o ho
  rw [List.mem_flatMap] at ho
  obtain ⟨w, hw, ho⟩ := ho
  rw [List.mem_map] at ho
  obtain ⟨g, hg, rfl⟩ := ho
  have hw' : w ∈ df.map Prod.fst := (List.mem_insertionSort _).mp hw
  rw [List.mem_map] at hw'
  obtain ⟨r, hr, hrw⟩ := hw'
  have hfind : ((df.find? (fun r => r.fst == w)).isSome) := by
    rw [List.find?_isSome]
    exact ⟨r, hr, by simp [hrw]⟩
  obtain ⟨r₀, hr₀⟩ := Option.isSome_iff_exists.mp hfind
  have hr₀mem : r₀ ∈ df := List.mem_of_find?_eq_some hr₀
  have hr₀len : r₀.snd.length = group_list.length := hwf r₀ hr₀mem
  have hgidx : group_list.indexOf? g = some (group_list.indexOf g) := by
    cases hq : group_list.indexOf? g with
    | none =>
      rw [List.indexOf?_eq_none_iff] at hq
      exact absurd (hq g hg) (by simp)
    | some i =>
      have h2 := List.indexOf_eq_indexOf? g group_list
      rw [hq] at h2
      rw [h2]
  have hglt : group_list.indexOf g < r₀.snd.length := by
    rw [hr₀len]
    exact List.indexOf_lt_length.mpr hg
  rw [df_loc, hr₀, hgidx]
  show (r₀.snd.get? (List.indexOf g group_list)).isSome = true
  rw [List.get?_eq_get hglt]
  rfl

theorem indexOf?_eq_some_of_mem {α : Type} [DecidableEq α] {a : α} {l : List α}
    (h : a ∈ l) : l.indexOf? a = some (l.indexOf a) := by
  cases hq : l.indexOf? a with
  | none =>
    rw [List.indexOf?_eq_none_iff] at hq
    exact absurd (hq a h) (by simp)
  | some i =>
    have h2 := List.indexOf_eq_indexOf? a l
    rw [hq] at h2
    rw [h2]

theorem get_daily_kinmu_of_ne_nil (td rd ri : Int) (flat : List String)
    (hne : flat ≠ []) :
    get_daily_kinmu td rd ri flat =
      some (flat.getD ((ri + (td - rd)) % (flat.length : Int)).toNat "",
        Sum.inr ((ri + (td - rd)) % (flat.length : Int) / (group_list.length : Int) + 1),
        group_list.getD
          (((ri + (td - rd)) % (flat.length : Int)) % (group_list.length : Int)).toNat
          "") := by
  have hN : 0 < (flat.length : Int) := by
    exact_mod_cast List.length_pos.mpr hne
  have ht0 : 0 ≤ (ri + (td - rd)) % (flat.length : Int) :=
    Int.emod_nonneg _ (by omega)
  have htN : (ri + (td - rd)) % (flat.length : Int) < (flat.length : Int) :=
    Int.emod_lt_of_pos _ hN
  have htoNat : ((ri + (td - rd)) % (flat.length : Int)).toNat < flat.length := by
    omega
  have hg0 : 0 ≤ ((ri + (td - rd)) % (flat.length : Int)) % (group_list.length : Int) :=
    Int.emod_nonneg _ (by decide)
  have hgN : ((ri + (td - rd)) % (flat.length : Int)) % (group_list.length : Int)
      < (group_list.length : Int) :=
    Int.emod_lt_of_pos _ (by decide)
  have hgtoNat :
      (((ri + (td - rd)) % (flat.length : Int)) % (group_list.length : Int)).toNat
        < group_list.length := by
    omega
  simp only [get_daily_kinmu, if_neg hne]
  rw [Int.fmod_eq_emod _ (by omega : (0:Int) ≤ (flat.length : Int)),
    Int.fmod_eq_emod _ (by decide : (0:Int) ≤ (group_list.length : Int)),
    Int.fdiv_eq_ediv _ (by decide : (0:Int) ≤ (group_list.length : Int)),
    get?_eq_some_getD group_list _ "" hgtoNat,
    get?_eq_some_getD flat _ "" htoNat]

theorem spec_target_index_eq_emod (a b n : Int) :
    spec_target_index a b n = (a + b) % n := by
  unfold spec_target_index
  rw [show (a + b) % n + n = (a + b) % n + n * 1 by ring,
    Int.add_mul_emod_self_left, Int.emod_emod_of_dvd _ dvd_rfl]

theorem emod_succ_cycle (x n : Int) (hn : 0 < n) (h7 : (7:Int) ∣ n) :
    ((x + 1) % n % 7).toNat = ((x % n % 7).toNat + 1) % 7 := by
  have h7n : (7:Int) ≤ n := Int.le_of_dvd hn h7
  have h1n : (1:Int) % n = 1 := Int.emod_eq_of_lt (by omega) (by omega)
  have key : (x + 1) % n = (x % n + 1) % n := by
    rw [Int.add_emod, h1n]
  rw [key]
  have ht0 : 0 ≤ x % n := Int.emod_nonneg _ (by omega)
  have htn : x % n < n := Int.emod_lt_of_pos _ hn
  rcases eq_or_lt_of_le (show x % n + 1 ≤ n by omega) with hEq | hLt
  · rw [hEq, Int.emod_self]
    omega
  · rw [Int.emod_eq_of_lt (by omega) hLt]
    omega

/-! ## Claim theorems -/

/-- C1: for a non-empty flat schedule of length `N`, an anchor index in
`[0, N)` and any target date, the forward query computes
`targetIndex = ((referenceIndex + dayOffset) mod N + N) mod N`, a
non-negative index, and returns the week number `targetIndex div G + 1`,
the group label `group_list[targetIndex mod G]`, and the duty code
`flat[targetIndex]`. -/
theorem get_daily_kinmu_forward_query (td rd ri : Int) (flat : List String)
    (hne : flat ≠ []) (h0 : 0 ≤ ri) (hri : ri < (flat.length : Int)) :
    0 ≤ spec_target_index ri (td - rd) (flat.length : Int) ∧
    get_daily_kinmu td rd ri flat =
      some (flat.getD (spec_target_index ri (td - rd) (flat.length : Int)).toNat "",
        Sum.inr (spec_target_index ri (td - rd) (flat.length : Int)
          / (group_list.length : Int) + 1),
        group_list.getD
          ((spec_target_index ri (td - rd) (flat.length : Int))
            % (group_list.length : Int)).toNat "") := by
  have hN : 0 < (flat.length : Int) := by
    exact_mod_cast List.length_pos.mpr hne
  rw [spec_target_index_eq_emod]
  exact ⟨Int.emod_nonneg _ (by omega), get_daily_kinmu_of_ne_nil td rd ri flat hne⟩

theorem get_daily_kinmu_forward_query_witness :
    get_daily_kinmu 5 0 4 sample_flat = some ("泊", Sum.inr 2, "ハ") := by
  have h := get_daily_kinmu_forward_query 5 0 4 sample_flat (by decide) (by decide)
    (by decide)
  rw [h.2]
  decide

/-- C2: for a non-empty flat schedule, the resolver is periodic with period
`N`: resolving a date and the date `N` days later gives the same triple. -/
theorem get_daily_kinmu_periodic (d rd ri : Int) (flat : List String)
    (hne : flat ≠ []) :
    get_daily_kinmu (d + (flat.length : Int)) rd ri flat =
      get_daily_kinmu d rd ri flat := by
  rw [get_daily_kinmu_of_ne_nil _ _ _ _ hne, get_daily_kinmu_of_ne_nil _ _ _ _ hne,
    show ri + (d + (flat.length : Int) - rd)
        = ri + (d - rd) + (flat.length : Int) * 1 by ring,
    Int.add_mul_emod_self_left]

theorem get_daily_kinmu_periodic_witness :
    get_daily_kinmu (5 + (sample_flat.length : Int)) 0 4 sample_flat =
      get_daily_kinmu 5 0 4 sample_flat :=
  get_daily_kinmu_periodic 5 0 4 sample_flat (by decide)

/-- C5: the duty-code display classification is total and deterministic, and
its four outcomes are characterised exactly by the ordered rule chain: exact
equality with 公/休 first, then the 泊 substring, then the 明 substring, else
the default; a code containing both 泊 and 明 is classified as overnight. -/
theorem kinmu_color_classification (s : String) :
    (kinmu_color s = "red" ∨ kinmu_color s = "blue" ∨ kinmu_color s = "green" ∨
      kinmu_color s = "black") ∧
    (kinmu_color s = "red" ↔ (s = "公" ∨ s = "休")) ∧
    (kinmu_color s = "blue" ↔
      (¬(s = "公" ∨ s = "休") ∧ s.data.contains '泊' = true)) ∧
    (kinmu_color s = "green" ↔
      (¬(s = "公" ∨ s = "休") ∧ s.data.contains '泊' = false ∧
        s.data.contains '明' = true)) ∧
    (kinmu_color s = "black" ↔
      (¬(s = "公" ∨ s = "休") ∧ s.data.contains '泊' = false ∧
        s.data.contains '明' = false)) := by
  unfold kinmu_color
  by_cases h1 : s = "公" ∨ s = "休" <;>
    by_cases h2 : s.data.contains '泊' = true <;>
    by_cases h3 : s.data.contains '明' = true <;>
    simp_all

/-- C6: with a non-empty flat schedule the resolver is deterministic (equal
inputs give equal outputs) and total: for every target date, reference date
and reference index it returns a proper `(dutyCode, weekNumber, groupLabel)`
triple, never a raised exception. -/
theorem get_daily_kinmu_pure_total (td rd ri : Int) (flat : List String)
    (hne : flat ≠ []) :
    (∀ td' rd' ri' flat', td = td' → rd = rd' → ri = ri' → flat = flat' →
      get_daily_kinmu td rd ri flat = get_daily_kinmu td' rd' ri' flat') ∧
    ∃ kinmu week grp,
      get_daily_kinmu td rd ri flat = some (kinmu, Sum.inr week, grp) := by
  refine ⟨?_, ?_⟩
  · intro td' rd' ri' flat' h1 h2 h3 h4
    rw [h1, h2, h3, h4]
  · rw [get_daily_kinmu_of_ne_nil _ _ _ _ hne]
    exact ⟨_, _, _, rfl⟩

theorem get_daily_kinmu_pure_total_witness :
    (∀ td' rd' ri' flat', (5:Int) = td' → (0:Int) = rd' → (4:Int) = ri' →
      sample_flat = flat' →
      get_daily_kinmu 5 0 4 sample_flat = get_daily_kinmu td' rd' ri' flat') ∧
    ∃ kinmu week grp,
      get_daily_kinmu 5 0 4 sample_flat = some (kinmu, Sum.inr week, grp) :=
  get_daily_kinmu_pure_total 5 0 4 sample_flat (by decide)

/-- C10: with an empty flat shift list, `get_daily_kinmu` raises nothing and
returns the sentinel triple for every target date, reference date and
reference index. -/
theorem get_daily_kinmu_empty_sentinel (td rd ri : Int) :
    get_daily_kinmu td rd ri [] = some ("データなし", Sum.inl "-", "-") := rfl

/-- C7 counterexample: an empty table is not rejected at construction time;
flattening it succeeds with an empty flat schedule, and the per-date query is
reachable with that empty schedule, answering the sentinel triple. -/
theorem empty_table_not_rejected :
    flatten_shift_data (some []) = some [] ∧
    get_daily_kinmu 0 0 0 [] = some ("データなし", Sum.inl "-", "-") := by
  exact ⟨rfl, rfl⟩

/-- C7 amended: an empty table flows through construction (flattening yields
an empty schedule, no error), the resolver itself guards the empty case by
answering the sentinel triple, and the resolver returns a value — never a
raised exception — for every schedule, empty or not. -/
theorem resolver_guards_empty_schedule (td rd ri : Int) (flat : List String) :
    flatten_shift_data (some ([] : ShiftDF)) = some [] ∧
    (get_daily_kinmu td rd ri flat).isSome = true ∧
    get_daily_kinmu td rd ri [] = some ("データなし", Sum.inl "-", "-") := by
  refine ⟨rfl, ?_, rfl⟩
  by_cases h : flat = []
  · rw [h]
    rfl
  · rw [get_daily_kinmu_of_ne_nil _ _ _ _ h]
    rfl

/-- C8: anchor-index construction fails when the requested week number is not
among the table's week numbers or the requested group label is not canonical;
for a week present in the table and a canonical label it succeeds with a
reference index below `W * G`. -/
theorem ref_shift_index_validation (df : ShiftDF) (w : Int) (g : String) :
    (w ∉ df.map Prod.fst → ref_shift_index df w g = none) ∧
    (g ∉ group_list → ref_shift_index df w g = none) ∧
    (w ∈ df.map Prod.fst → g ∈ group_list →
      ∃ i, ref_shift_index df w g = some i ∧
        i < df.length * group_list.length) := by
  have hsortlen : (sorted_index df).length = df.length := by
    rw [sorted_index, List.length_insertionSort, List.length_map]
  refine ⟨?_, ?_, ?_⟩
  · intro hw
    have hw' : w ∉ sorted_index df := fun h =>
      hw ((List.mem_insertionSort _).mp h)
    have hq : (sorted_index df).indexOf? w = none := by
      rw [List.indexOf?_eq_none_iff]
      intro x hx hbeq
      exact hw' (by rwa [show x = w from by simpa using hbeq] at hx)
    rw [ref_shift_index, hq]
  · intro hg
    have hq : group_list.indexOf? g = none := by
      rw [List.indexOf?_eq_none_iff]
      intro x hx hbeq
      exact hg (by rwa [show x = g from by simpa using hbeq] at hx)
    rw [ref_shift_index, hq]
    cases (sorted_index df).indexOf? w <;> rfl
  · intro hw hg
    have hw' : w ∈ sorted_index df := (List.mem_insertionSort _).mpr hw
    have hwi := indexOf?_eq_some_of_mem hw'
    have hgi := indexOf?_eq_some_of_mem hg
    refine ⟨(sorted_index df).indexOf w * group_list.length + group_list.indexOf g,
      ?_, ?_⟩
    · rw [ref_shift_index, hwi, hgi]
    · have h1 : (sorted_index df).indexOf w < df.length := by
        rw [← hsortlen]
        exact List.indexOf_lt_length.mpr hw'
      have h2 : group_list.indexOf g < group_list.length :=
        List.indexOf_lt_length.mpr hg
      have hG : group_list.length = 7 := rfl
      rw [hG] at h2 ⊢
      omega

theorem ref_shift_index_validation_witness :
    ref_shift_index sample_df 99 "イ" = none ∧
    ref_shift_index sample_df 1 "X" = none ∧
    ∃ i, ref_shift_index sample_df 2 "ロ" = some i ∧
      i < sample_df.length * group_list.length :=
  ⟨(ref_shift_index_validation sample_df 99 "イ").1 (by decide),
   (ref_shift_index_validation sample_df 1 "X").2.1 (by decide),
   (ref_shift_index_validation sample_df 2 "ロ").2.2 (by decide) (by decide)⟩

/-- C4: flattening a non-empty well-formed table yields a schedule of length
`W * G` whose index `i` holds the table cell of the row at sorted position
`i / G` and the group at position `i mod G`. -/
theorem flatten_shift_data_rowmajor (df : ShiftDF) (hne : df ≠ [])
    (hwf : WellFormedDF df) :
    ∃ flat, flatten_shift_data (some df) = some flat ∧
      flat.length = df.length * group_list.length ∧
      ∀ i, i < flat.length →
        df_loc df ((sorted_index df).getD (i / group_list.length) 0)
          (group_list.getD (i % group_list.length) "") = some (flat.getD i "") := by
  obtain ⟨flat, hflat⟩ := flatten_total hwf
  obtain ⟨h1, h2⟩ := flatten_eq_some hflat
  exact ⟨flat, hflat, h1, h2⟩

theorem flatten_shift_data_rowmajor_witness :
    ∃ flat, flatten_shift_data (some sample_df) = some flat ∧
      flat.length = sample_df.length * group_list.length ∧
      ∀ i, i < flat.length →
        df_loc sample_df ((sorted_index sample_df).getD (i / group_list.length) 0)
          (group_list.getD (i % group_list.length) "") = some (flat.getD i "") :=
  flatten_shift_data_rowmajor sample_df (by decide)
    (by unfold WellFormedDF; decide)

/-- C3: an anchor built from a week number present in the table and a
canonical group label resolves its own reference date to exactly the table
cell at that week and group, the anchor's 1-based sorted week position, and
the anchor's group label. -/
theorem resolve_anchor_self_consistency (df : ShiftDF) (hwf : WellFormedDF df)
    (w : Int) (g : String) (hw : w ∈ df.map Prod.fst) (hg : g ∈ group_list)
    (rd : Int) (flat : List String) (ri : Nat)
    (hflat : flatten_shift_data (some df) = some flat)
    (hri : ref_shift_index df w g = some ri) :
    ∃ cell, df_loc df w g = some cell ∧
      get_daily_kinmu rd rd (ri : Int) flat =
        some (cell, Sum.inr (((sorted_index df).indexOf w : Int) + 1), g) := by
  have hw' : w ∈ sorted_index df := (List.mem_insertionSort _).mpr hw
  have hwi := indexOf?_eq_some_of_mem hw'
  have hgi := indexOf?_eq_some_of_mem hg
  have hG : group_list.length = 7 := rfl
  rw [ref_shift_index, hwi, hgi, Option.some_inj, hG] at hri
  obtain ⟨hlen, hcell⟩ := flatten_eq_some hflat
  have hwlt : (sorted_index df).indexOf w < (sorted_index df).length :=
    List.indexOf_lt_length.mpr hw'
  have hsortlen : (sorted_index df).length = df.length := by
    rw [sorted_index, List.length_insertionSort, List.length_map]
  have hglt : group_list.indexOf g < group_list.length :=
    List.indexOf_lt_length.mpr hg
  have hglt7 : group_list.indexOf g < 7 := hG ▸ hglt
  have hriflat : ri < flat.length := by
    rw [hlen, hG]
    rw [hsortlen] at hwlt
    omega
  have hfne : flat ≠ [] := by
    intro h
    rw [h] at hriflat
    exact absurd hriflat (by simp)
  rw [get_daily_kinmu_of_ne_nil _ _ _ _ hfne]
  have ht : (ri : Int) + (rd - rd) = (ri : Int) := by ring
  have htmod : ((ri : Int) + (rd - rd)) % (flat.length : Int) = (ri : Int) := by
    rw [ht]
    exact Int.emod_eq_of_lt (by omega) (by exact_mod_cast hriflat)
  rw [htmod]
  have hGZ : (group_list.length : Int) = 7 := rfl
  have hdiv : (ri : Int) / (group_list.length : Int)
      = ((sorted_index df).indexOf w : Int) := by
    rw [hGZ]
    omega
  have hmod : ((ri : Int) % (group_list.length : Int)).toNat
      = group_list.indexOf g := by
    rw [hGZ]
    omega
  have hsw : (sorted_index df).getD ((sorted_index df).indexOf w) 0 = w := by
    rw [List.getD_eq_get?, List.get?_eq_get hwlt]
    simpa using List.indexOf_get hwlt
  have hsg : group_list.getD (group_list.indexOf g) "" = g := by
    rw [List.getD_eq_get?, List.get?_eq_get hglt]
    simpa using List.indexOf_get hglt
  have hnatdiv : (ri : Int).toNat = ri := Int.toNat_natCast ri
  have hcellri := hcell ri hriflat
  have hdivnat : ri / group_list.length = (sorted_index df).indexOf w := by
    rw [hG]
    omega
  have hmodnat : ri % group_list.length = group_list.indexOf g := by
    rw [hG]
    omega
  rw [hdivnat, hmodnat, hsw, hsg] at hcellri
  refine ⟨flat.getD ri "", hcellri, ?_⟩
  rw [hdiv, hnatdiv, hmod, hsg]

theorem resolve_anchor_self_consistency_witness :
    ∃ cell, df_loc sample_df 2 "ロ" = some cell ∧
      get_daily_kinmu 100 100 ((8 : Nat) : Int) sample_flat =
        some (cell, Sum.inr (((sorted_index sample_df).indexOf 2 : Int) + 1), "ロ") :=
  resolve_anchor_self_consistency sample_df (by unfold WellFormedDF; decide) 2 "ロ" (by decide)
    (by decide) 100 sample_flat 8 (by decide) (by decide)

/-- C9: over a flat schedule flattened from a non-empty table, the group
label answered for day `d + 1` is the successor (cyclically, wrapping after
the last label) of the one answered for day `d` in the fixed group order. -/
theorem get_daily_kinmu_group_cycle (df : ShiftDF) (hne : df ≠ [])
    (d rd ri : Int) (flat : List String)
    (hflat : flatten_shift_data (some df) = some flat) :
    ∃ gi : Nat, gi < group_list.length ∧
      (∃ k w, get_daily_kinmu d rd ri flat = some (k, w, group_list.getD gi "")) ∧
      (∃ k w, get_daily_kinmu (d + 1) rd ri flat =
        some (k, w, group_list.getD ((gi + 1) % group_list.length) "")) := by
  obtain ⟨hlen, -⟩ := flatten_eq_some hflat
  have hG : group_list.length = 7 := rfl
  have hdfpos : 0 < df.length := List.length_pos.mpr hne
  have hflen : 0 < flat.length := by
    rw [hlen, hG]
    omega
  have hfne : flat ≠ [] := List.length_pos.mp hflen
  have hN : 0 < (flat.length : Int) := by exact_mod_cast hflen
  have h7 : (7 : Int) ∣ (flat.length : Int) := by
    refine ⟨(df.length : Int), ?_⟩
    rw [hlen, hG]
    push_cast
    ring
  have hGZ : (group_list.length : Int) = 7 := rfl
  rw [get_daily_kinmu_of_ne_nil d rd ri flat hfne,
    get_daily_kinmu_of_ne_nil (d + 1) rd ri flat hfne, hGZ]
  refine ⟨((ri + (d - rd)) % (flat.length : Int) % 7).toNat, ?_, ⟨_, _, rfl⟩, ?_⟩
  · have h1 : 0 ≤ (ri + (d - rd)) % (flat.length : Int) % 7 :=
      Int.emod_nonneg _ (by omega)
    have h2 : (ri + (d - rd)) % (flat.length : Int) % 7 < 7 :=
      Int.emod_lt_of_pos _ (by omega)
    rw [hG]
    omega
  · rw [show ri + (d + 1 - rd) = ri + (d - rd) + 1 by ring,
      emod_succ_cycle (ri + (d - rd)) (flat.length : Int) hN h7, hG]
    exact ⟨_, _, rfl⟩

theorem get_daily_kinmu_group_cycle_witness :
    ∃ gi : Nat, gi < group_list.length ∧
      (∃ k w, get_daily_kinmu 5 0 4 sample_flat =
        some (k, w, group_list.getD gi "")) ∧
      (∃ k w, get_daily_kinmu (5 + 1) 0 4 sample_flat =
        some (k, w, group_list.getD ((gi + 1) % group_list.length) "")) :=
  get_daily_kinmu_group_cycle sample_df (by decide) 5 0 4 sample_flat (by decide)
